import Mathlib

/-!
# Verification development for `draytonbrown/debug`

A shallow embedding of `debug.go`, `errors/errors.go` and `enable.go`, and theorems about it.

Modelling choices, each forced by what the Go code does:

* `any` payloads are values boxed with their dynamic type (`Any`); the nil interface is `none`.
  A value of the type parameter `T` of `Wrap` is returned in this boxed form.
* `[]*Command[any]` is a slice header (`Slice`) over a backing array that lives in a `Heap`;
  `append` stores in place when the capacity allows it, as Go does. The pointers stored by this
  package are never nil (`NewCommand` always allocates), so a written slot is a `Command`.
* `context.Context` is the chain of `context.WithValue` layers (`Ctx`).
* Caller-supplied functions are state transformers over a `World`, which holds the package
  variable `enabled`, the heap and the variables captured by the caller's closures.
-/

set_option autoImplicit false

namespace Debug

/-! ## Go types and dynamically typed values -/

/-- Go types, as far as the type switch in `Wrap` and the `%T` verb can tell them apart. -/
inductive GoType where
  | bool
  | int
  | string
  | slice (elem : GoType)
  | pointer (elem : GoType)
  /-- A defined (named) non-interface type with its method names. -/
  | named (name : String) (methods : List String) (underlying : GoType)
  /-- An interface type, for instance `any` or `error`. -/
  | interface (name : String) (methods : List String)
  deriving DecidableEq, Repr

namespace GoType

/-- The type `any`, that is `interface {}`. -/
def any : GoType := .interface "interface \x7b\x7d" []

/-- The predeclared interface type `error`. -/
def error : GoType := .interface "error" ["Error"]

/-- Whether the type is an interface type. -/
def isInterface : GoType → Bool
  | .interface _ _ => true
  | _ => false

/-- Method names an interface type asks for (nothing for other types). -/
def required : GoType → List String
  | .interface _ ms => ms
  | _ => []

/-- Method set of a type that can be a dynamic type; methods are declared on value receivers,
so a pointer to a defined type has them as well. -/
def methodSet : GoType → List String
  | .named _ ms _ => ms
  | .pointer (.named _ ms _) => ms
  | _ => []

/-- Whether dynamic type `d` implements interface type `i`. -/
def implements (d i : GoType) : Bool :=
  i.required.all (fun m => d.methodSet.contains m)

/-- The string `reflect.Type.String` gives, which is what the verb `%T` prints. -/
def typeName : GoType → String
  | .bool => "bool"
  | .int => "int"
  | .string => "string"
  | .slice e => "[]" ++ typeName e
  | .pointer e => "*" ++ typeName e
  | .named n _ _ => n
  | .interface n _ => n

end GoType

/-- The data of a value once its type is known. -/
inductive Raw where
  | bool (b : Bool)
  | int (n : Int)
  | string (s : String)
  /-- The nil pointer or nil slice. -/
  | nilRef
  | pointer (addr : Nat)
  | slice (items : List Raw)
  /-- A nil interface value held inside a composite value. -/
  | nilInterface
  /-- A non-nil interface value held inside a composite value. -/
  | boxed (type : GoType) (data : Raw)

/-- A non-nil interface value: the dynamic type and the dynamic value. -/
structure Boxed where
  type : GoType
  data : Raw

/-- A value of type `any`; `none` is the nil interface value. -/
abbrev Any := Option Boxed

/-- The data of the zero value of a non-interface type. -/
def zeroRaw : GoType → Raw
  | .bool => .bool false
  | .int => .int 0
  | .string => .string ""
  | .slice _ => .nilRef
  | .pointer _ => .nilRef
  | .named _ _ u => zeroRaw u
  | .interface _ _ => .nilInterface

/-- The value `*new(T)`, converted to `any`: nil for an interface type `T`, and otherwise the
zero value of `T` with dynamic type `T`. -/
def zeroValue (T : GoType) : Any :=
  if T.isInterface then none else some ⟨T, zeroRaw T⟩

/-- What `fmt` prints for the verb `%T`. -/
def fmtT : Any → String
  | none => "<nil>"
  | some b => b.type.typeName

/-- Whether `case T` of a type switch on `v` is taken: the nil interface value takes no type
case; for an interface type `T` the dynamic type has to implement `T`, for any other type the
dynamic type has to be `T`. -/
def caseMatches (v : Any) (T : GoType) : Bool :=
  match v with
  | none => false
  | some b => if T.isInterface then b.type.implements T else decide (b.type = T)

/-! ## Errors -/

/-- Error values. The two package-level values of `errors/errors.go` are constructors of their
own; values made elsewhere are told apart by an identity. -/
inductive GoError where
  | CommandNotFound
  | NoCommandsFound
  /-- A value made by `fmt.Errorf` with a format that has no `%w`. -/
  | errorf (msg : String)
  /-- A value made by the caller with `errors.New`. -/
  | caller (ident : Nat) (msg : String)
  /-- A value that wraps another one (`Unwrap` gives `inner`). -/
  | wrapping (ident : Nat) (msg : String) (inner : GoError)
  deriving DecidableEq, Repr

/-- The method `Error`. -/
def GoError.Error : GoError → String
  | .CommandNotFound => "command not found"
  | .NoCommandsFound => "no commands found"
  | .errorf msg => msg
  | .caller _ msg => msg
  | .wrapping _ msg _ => msg

/-- The function `errors.Is` on a non-nil `err`: equality with `target` somewhere along the
chain of `Unwrap`. -/
def errorsIs (err target : GoError) : Bool :=
  decide (err = target) ||
    match err with
    | .wrapping _ _ inner => errorsIs inner target
    | _ => false

/-! ## Commands, slices and the heap -/

/-- The struct `Command[any]`. -/
structure Command where
  Id : String
  Payload : Any

/-- A slice header of type `[]*Command[any]`; the nil slice has length and capacity zero. -/
structure Slice where
  array : Nat
  len : Nat
  cap : Nat
  deriving DecidableEq, Repr

/-- The nil slice. -/
def Slice.nil : Slice := ⟨0, 0, 0⟩

/-- The backing arrays allocated so far; each is given by the slots written so far, in index
order (the slots after them still hold nil and lie beyond the length of every slice). -/
structure Heap where
  arrays : List (List Command)

namespace Heap

/-- The heap before any allocation. -/
def empty : Heap := ⟨[]⟩

/-- The elements `s[0], ..., s[len-1]` of slice `s`. -/
def elems (h : Heap) (s : Slice) : List Command :=
  match h.arrays.get? s.array with
  | none => []
  | some slots => slots.take s.len

/-- The assignment `array[i] = c`. -/
def store (h : Heap) (array i : Nat) (c : Command) : Heap :=
  match h.arrays.get? array with
  | none => h
  | some slots => ⟨h.arrays.set array (slots.take i ++ c :: slots.drop (i + 1))⟩

end Heap

/-- The builtin `append(s, c)`. With room left in the backing array the element is stored in
place and the result shares the array; otherwise a new array of capacity `grow s.cap` gets the
elements of `s` followed by `c`. The growth policy `grow` belongs to the Go runtime. -/
def append (grow : Nat → Nat) (h : Heap) (s : Slice) (c : Command) : Slice × Heap :=
  if s.len < s.cap then
    ({ s with len := s.len + 1 }, h.store s.array s.len c)
  else
    (⟨h.arrays.length, s.len + 1, grow s.cap⟩, ⟨h.arrays ++ [h.elems s ++ [c]]⟩)

/-- Growth of the gc runtime for short slices of pointers: capacities 1, 2, 4, 8, ... -/
def doubling (cap : Nat) : Nat :=
  if cap = 0 then 1 else 2 * cap

/-! ## Contexts -/

/-- Keys of context values: the unexported `key{}` of this package, or a key of other code. -/
inductive Key where
  | key
  | foreign (name : String)
  deriving DecidableEq, Repr

/-- What `ctx.Value` may return, with the distinctions `Commands` makes. -/
inductive CtxValue where
  | nil
  | commands (c : Slice)
  | foreign (v : Any)

/-- A `context.Context`. -/
inductive Ctx where
  /-- The context `context.Background()`. -/
  | Background
  /-- The context `context.WithValue(parent, key, val)`. -/
  | WithValue (parent : Ctx) (k : Key) (val : CtxValue)
  /-- A context from `WithCancel`, `WithDeadline` or `WithTimeout`; values come from the parent. -/
  | Derived (parent : Ctx)

/-- The method `Value` of a context. -/
def Ctx.Value : Ctx → Key → CtxValue
  | .Background, _ => .nil
  | .WithValue parent k val, k' => if k' = k then val else parent.Value k'
  | .Derived parent, k' => parent.Value k'

/-! ## The package -/

/-- The package state as seen by running code: the variable `enabled`, the heap, and the
variables captured by the closures of the caller. -/
structure World (σ : Type) where
  enabled : Bool
  heap : Heap
  vars : σ

/-- A Go function value without arguments, run for its result and its effect. -/
abbrev Fn (σ α : Type) := World σ → α × World σ

/-- The function `NewCommand`. -/
def NewCommand (id : String) (payload : Any) : Except GoError Command :=
  .ok { Id := id, Payload := payload }

/-- The function `Commands`. -/
def Commands (ctx : Ctx) : Slice × Option GoError :=
  match ctx.Value .key with
  | .nil => (Slice.nil, some .NoCommandsFound)
  | .commands c => (c, none)
  | .foreign _ => (Slice.nil, some .NoCommandsFound)

/-- The loop of `command` over the elements of the slice. -/
def command.scan (id : String) : List Command → Except GoError Command
  | [] => .error .CommandNotFound
  | c :: rest => if c.Id = id then .ok c else command.scan id rest

/-- The function `command`. -/
def command (h : Heap) (ctx : Ctx) (id : String) : Except GoError Command :=
  match Commands ctx with
  | (_, some _) => .error .CommandNotFound
  | (commands, none) => command.scan id (h.elems commands)

/-- The function `Context`. -/
def Context (grow : Nat → Nat) (h : Heap) (ctx : Ctx) (id : String) (payload : Any) :
    Except GoError Ctx × Heap :=
  match NewCommand id payload with
  | .error err => (.error err, h)
  | .ok c =>
    match Commands ctx with
    | (commands, some err) =>
      if !errorsIs err .NoCommandsFound then (.error err, h)
      else
        let r := append grow h commands c
        (.ok (.WithValue ctx .key (.commands r.1)), r.2)
    | (commands, none) =>
      let r := append grow h commands c
      (.ok (.WithValue ctx .key (.commands r.1)), r.2)

/-- The function `Wrap`, with the type argument `T` made explicit. -/
def Wrap {σ : Type} (T : GoType) (ctx : Ctx) (id : String)
    (f : Fn σ (Any × Option GoError)) : Fn σ (Any × Option GoError) := fun w =>
  if !w.enabled then f w
  else
    match command w.heap ctx id with
    | .error _ => f w
    | .ok cmd =>
      if caseMatches cmd.Payload T then ((cmd.Payload, none), w)
      else
        ((zeroValue T,
          some (.errorf ("unexpected payload type: " ++ fmtT cmd.Payload ++
            " (wanted: " ++ fmtT (zeroValue T) ++ ")"))), w)

/-- The function `Do`. -/
def Do {σ : Type} (ctx : Ctx) (id : String)
    (f : Command → Fn σ (Option GoError)) : Fn σ (Option GoError) := fun w =>
  if !w.enabled then (none, w)
  else
    match command w.heap ctx id with
    | .error err => if errorsIs err .CommandNotFound then (none, w) else (some err, w)
    | .ok c => f c w

/-- The function `Custom`. -/
def Custom {σ : Type} (ctx : Ctx) (id : String)
    (f : Fn σ (Option GoError)) (f2 : Command → Fn σ (Option GoError)) :
    Fn σ (Option GoError) := fun w =>
  if !w.enabled then f w
  else
    match command w.heap ctx id with
    | .error _ => f w
    | .ok c => f2 c w

/-! ## Notions used to state the properties -/

/-- The sequence of commands attached to `ctx`: what `Commands` returns, read in heap `h`. -/
def attached (h : Heap) (ctx : Ctx) : List Command :=
  h.elems (Commands ctx).1

/-- Command `c` is the first element of `cs`, in order, whose `Id` is `id`. -/
def IsFirstWithId (cs : List Command) (id : String) (c : Command) : Prop :=
  ∃ before after, cs = before ++ c :: after ∧ c.Id = id ∧ ∀ d ∈ before, d.Id ≠ id

/-- Value `v` is of type `T`: it is not the nil interface value, and its dynamic type is `T`
or, for an interface type `T`, implements `T`. -/
def HasType (v : Any) (T : GoType) : Prop :=
  ∃ b, v = some b ∧
    ((T.isInterface = false ∧ b.type = T) ∨ (T.isInterface = true ∧ b.type.implements T = true))

/-- A slice that has spare capacity points to an array of the heap. -/
def Heap.Allocated (h : Heap) (s : Slice) : Prop :=
  s.len < s.cap → s.array < h.arrays.length

/-- An invocation of a caller-supplied function, as recorded by `traced`. -/
inductive Call where
  | production
  | override (c : Command)
  | handler (c : Command)

/-- A caller-supplied function that also records its invocation in a log kept among the
variables of the caller. -/
def traced {σ α : Type} (call : Call) (f : Fn σ α) : Fn (List Call × σ) α := fun w =>
  let r := f ⟨w.enabled, w.heap, w.vars.2⟩
  (r.1, ⟨r.2.enabled, r.2.heap, (w.vars.1 ++ [call], r.2.vars)⟩)

/-- The world `w` with an invocation log added to the variables of the caller. -/
def World.withLog {σ : Type} (w : World σ) (log : List Call) : World (List Call × σ) :=
  ⟨w.enabled, w.heap, (log, w.vars)⟩

/-! ## Fixtures taken from `debug_test.go` -/

/-- The payload `[]string{"debug-string1", "debug-string2"}`. -/
def testPayload : Any :=
  some ⟨.slice .string, .slice [.string "debug-string1", .string "debug-string2"]⟩

/-- The context `debug.Context(context.Background(), "debug-id-1", payload)` of the tests. -/
def testCtx : Ctx := .WithValue .Background .key (.commands ⟨0, 1, 1⟩)

/-- The heap after building `testCtx`. -/
def testHeap : Heap := ⟨[[⟨"debug-id-1", testPayload⟩]]⟩

/-- A world with the gate on, the heap of `testCtx` and an invocation counter at zero. -/
def testWorld : World Nat := ⟨true, testHeap, 0⟩

/-- A production function for `Wrap` that counts its invocations and fails. -/
def testProduction : Fn Nat (Any × Option GoError) := fun w =>
  ((none, some (.caller 7 "production implementation error")), { w with vars := w.vars + 1 })

/-- A production function for `Custom` that counts its invocations and fails. -/
def testFailing : Fn Nat (Option GoError) := fun w =>
  (some (.caller 7 "production implementation error"), { w with vars := w.vars + 1 })

/-- A handler that adds 10 to the counter and fails with an error naming nothing else. -/
def testHandler : Command → Fn Nat (Option GoError) := fun _ w =>
  (some (.caller 8 "handler error"), { w with vars := w.vars + 10 })

/-- The payload 1, an int. -/
def intOne : Any := some ⟨.int, .int 1⟩

/-- The payload 2, an int. -/
def intTwo : Any := some ⟨.int, .int 2⟩

/-- The background context with "a" attached once. -/
def twiceCtx1 : Ctx := .WithValue .Background .key (.commands ⟨0, 1, 1⟩)

/-- The heap after the first attachment of "a". -/
def twiceHeap1 : Heap := ⟨[[⟨"a", intOne⟩]]⟩

/-- The context `twiceCtx1` with "a" attached once more. -/
def twiceCtx2 : Ctx := .WithValue twiceCtx1 .key (.commands ⟨1, 2, 2⟩)

/-- The heap after the second attachment of "a": the full array of capacity 1 was left as it
is and a new array of capacity 2 allocated. -/
def twiceHeap2 : Heap := ⟨[[⟨"a", intOne⟩], [⟨"a", intOne⟩, ⟨"a", intTwo⟩]]⟩

/-- The payload "boom", a string. -/
def boomPayload : Any := some ⟨.string, .string "boom"⟩

/-- The context `debug.Context(context.Background(), "invalid", payload)`, for any payload. -/
def invalidCtx : Ctx := .WithValue .Background .key (.commands ⟨0, 1, 1⟩)

/-- The heap after attaching the nil payload under "invalid" (`TestWrap/invalid debug payload
type`). -/
def invalidHeap : Heap := ⟨[[⟨"invalid", none⟩]]⟩

/-- The heap after attaching `boomPayload` under "invalid". -/
def boomHeap : Heap := ⟨[[⟨"invalid", boomPayload⟩]]⟩


/-! ## The initialization hook of `enable.go` -/

/-- The state of the package when the program starts: `var enabled bool` has its zero value
and nothing has been allocated. -/
def World.start {σ : Type} (vars : σ) : World σ := ⟨false, Heap.empty, vars⟩

/-- The function `init` of `enable.go`, which is part of builds with the tag `dev` only. The
library functions `os.LookupEnv` and `strings.ToLower` are parameters; the result is the
message of the panic, or the state after the assignment `enabled = true`. -/
def init {σ : Type} (lookupEnv : String → Option String) (toLower : String → String)
    (w : World σ) : Except String (World σ) :=
  match lookupEnv "ENVIRONMENT" with
  | none => .error "ENVIRONMENT variable not set"
  | some e =>
    if toLower e = "production" then .error "debug build deployed to production"
    else .ok { w with enabled := true }

/-- Lower-casing of the letters A to Z, which is what `strings.ToLower` does on ASCII text. -/
def asciiLower (s : String) : String :=
  ⟨s.data.map (fun c => if 65 ≤ c.toNat ∧ c.toNat ≤ 90 then Char.ofNat (c.toNat + 32) else c)⟩

/-! ## More notions used to state the properties -/

/-- The `len` elements of slice `s` are in the heap, and so is its backing array when it has
spare capacity. Every slice made by `append` is of this kind, and stays so. -/
def Heap.Valid (h : Heap) (s : Slice) : Prop :=
  h.Allocated s ∧ (h.elems s).length = s.len

/-- Contexts as programs can build them: the type `key` is unexported, so a layer under `key{}`
comes from `Context`, which stores a slice of commands there. -/
def Ctx.Buildable : Ctx → Prop
  | .Background => True
  | .WithValue parent .key val => (∃ s, val = .commands s) ∧ parent.Buildable
  | .WithValue parent (.foreign _) _ => parent.Buildable
  | .Derived parent => parent.Buildable

/-- Whether a command was attached to the context or to a context it derives from, that is,
whether one of its layers comes from `Context`. -/
def Ctx.everAttached : Ctx → Bool
  | .Background => false
  | .WithValue _ .key _ => true
  | .WithValue parent (.foreign _) _ => parent.everAttached
  | .Derived parent => parent.everAttached

/-- The position, in the sequence, of the element at which the loop of `command` returns. -/
def command.position (id : String) : List Command → Option Nat
  | [] => none
  | c :: rest => if c.Id = id then some 0 else (command.position id rest).map (· + 1)

/-! ## Fixtures for shared backing arrays -/

/-- The background context with "a" attached. -/
def ctxA : Ctx := .WithValue .Background .key (.commands ⟨0, 1, 1⟩)

/-- The context `ctxA` with "b" attached. -/
def ctxB : Ctx := .WithValue ctxA .key (.commands ⟨1, 2, 2⟩)

/-- The context `ctxB` with "c" attached: its slice has length 3 and capacity 4. -/
def ctxC : Ctx := .WithValue ctxB .key (.commands ⟨2, 3, 4⟩)

/-- The context `ctxC` with "x" attached, stored in place. -/
def ctxX : Ctx := .WithValue ctxC .key (.commands ⟨2, 4, 4⟩)

/-- The context `ctxC` with "y" attached, stored in place as well. -/
def ctxY : Ctx := .WithValue ctxC .key (.commands ⟨2, 4, 4⟩)

/-- The commands "a", "b" and "c". -/
def abc : List Command := [⟨"a", intOne⟩, ⟨"b", intOne⟩, ⟨"c", intOne⟩]

/-- The heap after attaching "a", "b" and "c" in turn to the background context. -/
def heapC : Heap := ⟨[[⟨"a", intOne⟩], [⟨"a", intOne⟩, ⟨"b", intOne⟩], abc]⟩

/-- The heap after attaching "x" to `ctxC`. -/
def heapX : Heap :=
  ⟨[[⟨"a", intOne⟩], [⟨"a", intOne⟩, ⟨"b", intOne⟩], abc ++ [⟨"x", intOne⟩]]⟩

/-- The heap after attaching "y" to `ctxC` once "x" had been attached to it. -/
def heapY : Heap :=
  ⟨[[⟨"a", intOne⟩], [⟨"a", intOne⟩, ⟨"b", intOne⟩], abc ++ [⟨"y", intTwo⟩]]⟩

/-- The heap with "invalid" attached twice: first with a nil payload, then with "boom". -/
def shadowHeap : Heap :=
  ⟨[[⟨"invalid", none⟩], [⟨"invalid", none⟩, ⟨"invalid", boomPayload⟩]]⟩

/-- The context that goes with `shadowHeap`. -/
def shadowCtx : Ctx := .WithValue invalidCtx .key (.commands ⟨1, 2, 2⟩)

/-! ## Lemmas on the lookup -/

theorem elems_nil (h : Heap) : h.elems Slice.nil = [] := by
  unfold Heap.elems Slice.nil
  cases h.arrays.get? 0 <;> simp

theorem Commands_cases (ctx : Ctx) :
    Commands ctx = (Slice.nil, some .NoCommandsFound) ∨ ∃ c, Commands ctx = (c, none) := by
  unfold Commands
  cases ctx.Value .key with
  | nil => exact Or.inl rfl
  | commands c => exact Or.inr ⟨c, rfl⟩
  | foreign v => exact Or.inl rfl

theorem command_eq_scan (h : Heap) (ctx : Ctx) (id : String) :
    command h ctx id = command.scan id (attached h ctx) := by
  rcases Commands_cases ctx with hc | ⟨c, hc⟩
  · simp [command, attached, hc, elems_nil, command.scan]
  · simp [command, attached, hc]

theorem scan_ok_iff (id : String) (cs : List Command) (c : Command) :
    command.scan id cs = .ok c ↔ IsFirstWithId cs id c := by
  induction cs with
  | nil =>
    simp [command.scan, IsFirstWithId]
  | cons d rest ih =>
    unfold command.scan
    by_cases hd : d.Id = id
    · simp only [hd, if_true]
      constructor
      · intro h
        have hdc : d = c := by injection h
        subst hdc
        exact ⟨[], rest, rfl, hd, by simp⟩
      · rintro ⟨before, after, heq, _, hno⟩
        cases before with
        | nil =>
          simp at heq
          rw [heq.1]
        | cons b bs =>
          simp at heq
          exact absurd (heq.1 ▸ hd) (hno b (by simp))
    · simp only [hd, if_false]
      rw [ih]
      constructor
      · rintro ⟨before, after, heq, hid, hno⟩
        refine ⟨d :: before, after, by simp [heq], hid, ?_⟩
        intro x hx
        rcases List.mem_cons.mp hx with rfl | hx
        · exact hd
        · exact hno x hx
      · rintro ⟨before, after, heq, hid, hno⟩
        cases before with
        | nil =>
          simp at heq
          exact absurd (heq.1 ▸ hid) hd
        | cons b bs =>
          simp at heq
          exact ⟨bs, after, heq.2, hid, fun x hx => hno x (by simp [hx])⟩

theorem scan_error_iff (id : String) (cs : List Command) (e : GoError) :
    command.scan id cs = .error e ↔ (e = .CommandNotFound ∧ ∀ c ∈ cs, c.Id ≠ id) := by
  induction cs with
  | nil =>
    simp [command.scan]
    exact eq_comm
  | cons d rest ih =>
    unfold command.scan
    by_cases hd : d.Id = id
    · simp [hd]
    · simp [hd, ih]

theorem isFirst_of_mem (id : String) (cs : List Command) (h : ∃ c ∈ cs, c.Id = id) :
    ∃ c, IsFirstWithId cs id c := by
  cases hs : command.scan id cs with
  | ok c => exact ⟨c, (scan_ok_iff id cs c).mp hs⟩
  | error e =>
    obtain ⟨c, hc, hid⟩ := h
    exact absurd hid (((scan_error_iff id cs e).mp hs).2 c hc)

theorem command_ok_iff (h : Heap) (ctx : Ctx) (id : String) (c : Command) :
    command h ctx id = .ok c ↔ IsFirstWithId (attached h ctx) id c := by
  rw [command_eq_scan, scan_ok_iff]

theorem command_error_of_absent (h : Heap) (ctx : Ctx) (id : String)
    (habs : ∀ c ∈ attached h ctx, c.Id ≠ id) : command h ctx id = .error .CommandNotFound := by
  rw [command_eq_scan, scan_error_iff]
  exact ⟨rfl, habs⟩


/-! ## Lemmas on the type switch and on tracing -/

theorem caseMatches_iff (v : Any) (T : GoType) : caseMatches v T = true ↔ HasType v T := by
  unfold caseMatches HasType
  cases v with
  | none => simp
  | some b =>
    cases hT : T.isInterface <;> simp

theorem traced_log {σ α : Type} (call : Call) (f : Fn σ α) (w : World σ) (log : List Call) :
    (traced call f (w.withLog log)).2.vars.1 = log ++ [call] := rfl

theorem traced_result {σ α : Type} (call : Call) (f : Fn σ α) (w : World σ) (log : List Call) :
    (traced call f (w.withLog log)).1 = (f w).1 := rfl

theorem attached_Background (h : Heap) : attached h .Background = [] :=
  elems_nil h

/-! ## The dispatch functions, case by case -/

theorem Wrap_off {σ : Type} (T : GoType) (ctx : Ctx) (id : String)
    (f : Fn σ (Any × Option GoError)) (w : World σ) (hoff : w.enabled = false) :
    Wrap T ctx id f w = f w := by
  simp [Wrap, hoff]

theorem Wrap_absent {σ : Type} (T : GoType) (ctx : Ctx) (id : String)
    (f : Fn σ (Any × Option GoError)) (w : World σ)
    (habs : ∀ c ∈ attached w.heap ctx, c.Id ≠ id) : Wrap T ctx id f w = f w := by
  unfold Wrap
  rw [command_error_of_absent w.heap ctx id habs]
  cases w.enabled <;> rfl

theorem Wrap_found {σ : Type} (T : GoType) (ctx : Ctx) (id : String)
    (f : Fn σ (Any × Option GoError)) (w : World σ) (c : Command)
    (hon : w.enabled = true) (hfirst : IsFirstWithId (attached w.heap ctx) id c) :
    Wrap T ctx id f w =
      if caseMatches c.Payload T then ((c.Payload, none), w)
      else
        ((zeroValue T,
          some (.errorf ("unexpected payload type: " ++ fmtT c.Payload ++
            " (wanted: " ++ fmtT (zeroValue T) ++ ")"))), w) := by
  unfold Wrap
  rw [(command_ok_iff w.heap ctx id c).mpr hfirst]
  simp [hon]

theorem Do_off {σ : Type} (ctx : Ctx) (id : String) (f : Command → Fn σ (Option GoError))
    (w : World σ) (hoff : w.enabled = false) : Do ctx id f w = (none, w) := by
  simp [Do, hoff]

theorem Do_absent {σ : Type} (ctx : Ctx) (id : String) (f : Command → Fn σ (Option GoError))
    (w : World σ) (habs : ∀ c ∈ attached w.heap ctx, c.Id ≠ id) : Do ctx id f w = (none, w) := by
  unfold Do
  rw [command_error_of_absent w.heap ctx id habs]
  cases w.enabled <;> rfl

theorem Do_found {σ : Type} (ctx : Ctx) (id : String) (f : Command → Fn σ (Option GoError))
    (w : World σ) (c : Command) (hon : w.enabled = true)
    (hfirst : IsFirstWithId (attached w.heap ctx) id c) : Do ctx id f w = f c w := by
  unfold Do
  rw [(command_ok_iff w.heap ctx id c).mpr hfirst]
  simp [hon]

theorem Custom_off {σ : Type} (ctx : Ctx) (id : String) (f : Fn σ (Option GoError))
    (f2 : Command → Fn σ (Option GoError)) (w : World σ) (hoff : w.enabled = false) :
    Custom ctx id f f2 w = f w := by
  simp [Custom, hoff]

theorem Custom_absent {σ : Type} (ctx : Ctx) (id : String) (f : Fn σ (Option GoError))
    (f2 : Command → Fn σ (Option GoError)) (w : World σ)
    (habs : ∀ c ∈ attached w.heap ctx, c.Id ≠ id) : Custom ctx id f f2 w = f w := by
  unfold Custom
  rw [command_error_of_absent w.heap ctx id habs]
  cases w.enabled <;> rfl

theorem Custom_found {σ : Type} (ctx : Ctx) (id : String) (f : Fn σ (Option GoError))
    (f2 : Command → Fn σ (Option GoError)) (w : World σ) (c : Command)
    (hon : w.enabled = true) (hfirst : IsFirstWithId (attached w.heap ctx) id c) :
    Custom ctx id f f2 w = f2 c w := by
  unfold Custom
  rw [(command_ok_iff w.heap ctx id c).mpr hfirst]
  simp [hon]

/-! ## Value substitution: `Wrap` -/

/-- C1: with the gate on, when the first attached command whose `Id` is `id` has a payload of
type `T`, `Wrap` returns exactly that payload with a nil error and leaves the world as it was;
a production function that records its invocations records none. -/
theorem Wrap_returns_payload {σ : Type} (T : GoType) (ctx : Ctx) (id : String)
    (f : Fn σ (Any × Option GoError)) (w : World σ) (c : Command)
    (hon : w.enabled = true) (hfirst : IsFirstWithId (attached w.heap ctx) id c)
    (hty : HasType c.Payload T) :
    Wrap T ctx id f w = ((c.Payload, none), w) ∧
      ∀ log, (Wrap T ctx id (traced .production f) (w.withLog log)).2.vars.1 = log := by
  have hm : caseMatches c.Payload T = true := (caseMatches_iff _ _).mpr hty
  constructor
  · rw [Wrap_found T ctx id f w c hon hfirst, if_pos hm]
  · intro log
    rw [Wrap_found T ctx id _ (w.withLog log) c hon hfirst, if_pos hm]
    rfl

/-- Witness for C1 on the fixture of `TestWrap/OK`: the context is the one `Context` builds
from the background context, and `Wrap[[]string]` returns the attached slice. -/
theorem Wrap_returns_payload_witness :
    Context doubling Heap.empty .Background "debug-id-1" testPayload = (.ok testCtx, testHeap) ∧
      Wrap (.slice .string) testCtx "debug-id-1" testProduction testWorld =
        ((testPayload, none), testWorld) :=
  ⟨rfl, (Wrap_returns_payload (.slice .string) testCtx "debug-id-1" testProduction testWorld
    ⟨"debug-id-1", testPayload⟩ rfl ⟨[], [], rfl, rfl, by simp⟩
    ⟨_, rfl, Or.inl ⟨rfl, rfl⟩⟩).1⟩

/-- C2: when the gate is off, or no command with `Id` equal to `id` is attached to the context
(in particular when none is attached at all), `Wrap` is one run of `f`: it gives the value, the
error and the effect of `f`, and a recording `f` records exactly one invocation. -/
theorem Wrap_falls_through {σ : Type} (T : GoType) (ctx : Ctx) (id : String)
    (f : Fn σ (Any × Option GoError)) (w : World σ)
    (h : w.enabled = false ∨ ∀ c ∈ attached w.heap ctx, c.Id ≠ id) :
    Wrap T ctx id f w = f w ∧
      ∀ log, (Wrap T ctx id (traced .production f) (w.withLog log)).2.vars.1 =
        log ++ [.production] := by
  have key : ∀ {τ : Type} (g : Fn τ (Any × Option GoError)) (v : World τ),
      v.enabled = w.enabled → v.heap = w.heap → Wrap T ctx id g v = g v := by
    intro τ g v he hh
    rcases h with hoff | habs
    · exact Wrap_off T ctx id g v (he.trans hoff)
    · exact Wrap_absent T ctx id g v (by rw [hh]; exact habs)
  constructor
  · exact key f w rfl rfl
  · intro log
    rw [key (traced .production f) (w.withLog log) rfl rfl]
    rfl

/-- Witness for C2 on `TestWrap/unknown debug code - NOK`: nothing is attached to the
background context, so the error of the production function comes back and it ran once. -/
theorem Wrap_falls_through_witness :
    (∀ c ∈ attached testWorld.heap .Background, c.Id ≠ "unknown") ∧
      Wrap (.pointer .string) .Background "unknown" testProduction testWorld =
        ((none, some (.caller 7 "production implementation error")), ⟨true, testHeap, 1⟩) :=
  have habs : ∀ c ∈ attached testWorld.heap .Background, c.Id ≠ "unknown" := by
    intro c hc
    rw [attached_Background] at hc
    exact absurd hc (List.not_mem_nil c)
  ⟨habs, (Wrap_falls_through (.pointer .string) .Background "unknown" testProduction testWorld
    (Or.inr habs)).1⟩


theorem Wrap_mismatch {σ : Type} (T : GoType) (ctx : Ctx) (id : String)
    (f : Fn σ (Any × Option GoError)) (w : World σ) (c : Command)
    (hon : w.enabled = true) (hfirst : IsFirstWithId (attached w.heap ctx) id c)
    (hty : ¬ HasType c.Payload T) :
    Wrap T ctx id f w =
      ((zeroValue T,
        some (.errorf ("unexpected payload type: " ++ fmtT c.Payload ++
          " (wanted: " ++ fmtT (zeroValue T) ++ ")"))), w) := by
  have hm : ¬ caseMatches c.Payload T = true := fun hm => hty ((caseMatches_iff _ _).mp hm)
  rw [Wrap_found T ctx id f w c hon hfirst, if_neg hm]

theorem fmtT_zeroValue (T : GoType) :
    fmtT (zeroValue T) = if T.isInterface then "<nil>" else T.typeName := by
  unfold zeroValue
  cases T.isInterface <;> rfl

/-- C3, the code at an interface type `T`: with the gate on and a matching command whose
payload is not of type `error`, `Wrap[error]` returns nil and an error that names the payload
type but prints `<nil>` where the wanted type `error` belongs. With a payload that is the
string "boom" the message is "unexpected payload type: string (wanted: <nil>)", and on the
context of `TestWrap/invalid debug payload type` (payload nil) it is
"unexpected payload type: <nil> (wanted: <nil>)"; with `T = string` on that context the message
names the wanted type as the test expects. -/
theorem Wrap_mismatch_interface_wanted :
    Context doubling Heap.empty .Background "invalid" boomPayload = (.ok invalidCtx, boomHeap) ∧
      Wrap GoType.error invalidCtx "invalid" testProduction ⟨true, boomHeap, 0⟩ =
        ((none, some (.errorf "unexpected payload type: string (wanted: <nil>)")),
          ⟨true, boomHeap, 0⟩) ∧
      Context doubling Heap.empty .Background "invalid" none = (.ok invalidCtx, invalidHeap) ∧
      Wrap GoType.error invalidCtx "invalid" testProduction ⟨true, invalidHeap, 0⟩ =
        ((none, some (.errorf "unexpected payload type: <nil> (wanted: <nil>)")),
          ⟨true, invalidHeap, 0⟩) ∧
      Wrap GoType.string invalidCtx "invalid" testProduction ⟨true, invalidHeap, 0⟩ =
        ((some ⟨.string, .string ""⟩,
          some (.errorf "unexpected payload type: <nil> (wanted: string)")),
          ⟨true, invalidHeap, 0⟩) ∧
      GoType.error.typeName = "error" :=
  ⟨rfl, rfl, rfl, rfl, rfl, rfl⟩

/-! ## Side effects and dual paths: `Do` and `Custom` -/

/-- C4: `Custom` is one run of exactly one of its two functions. When the gate is on and a
command with `Id` equal to `id` is attached, it is one run of `f2` on the first such command,
and recording functions record that single invocation of `f2`; in every other case it is one
run of `f`, and the record holds that single invocation of `f`. The error returned is the one
of the function that ran. -/
theorem Custom_runs_exactly_one {σ : Type} (ctx : Ctx) (id : String)
    (f : Fn σ (Option GoError)) (f2 : Command → Fn σ (Option GoError)) (w : World σ) :
    ((w.enabled = true ∧ ∃ d ∈ attached w.heap ctx, d.Id = id) →
      ∃ c, IsFirstWithId (attached w.heap ctx) id c ∧ Custom ctx id f f2 w = f2 c w ∧
        ∀ log, (Custom ctx id (traced .production f) (fun d => traced (.override d) (f2 d))
          (w.withLog log)).2.vars.1 = log ++ [.override c]) ∧
    (¬ (w.enabled = true ∧ ∃ d ∈ attached w.heap ctx, d.Id = id) →
      Custom ctx id f f2 w = f w ∧
        ∀ log, (Custom ctx id (traced .production f) (fun d => traced (.override d) (f2 d))
          (w.withLog log)).2.vars.1 = log ++ [.production]) := by
  constructor
  · rintro ⟨hon, hex⟩
    obtain ⟨c, hc⟩ := isFirst_of_mem id _ hex
    refine ⟨c, hc, Custom_found ctx id f f2 w c hon hc, ?_⟩
    intro log
    rw [Custom_found ctx id _ _ (w.withLog log) c hon hc]
    rfl
  · intro hnot
    have key : ∀ {τ : Type} (g : Fn τ (Option GoError)) (g2 : Command → Fn τ (Option GoError))
        (v : World τ), v.enabled = w.enabled → v.heap = w.heap →
        Custom ctx id g g2 v = g v := by
      intro τ g g2 v he hh
      by_cases hon : w.enabled = true
      · apply Custom_absent
        intro d hd hid
        rw [hh] at hd
        exact hnot ⟨hon, d, hd, hid⟩
      · apply Custom_off
        rw [he]
        simpa using hon
    refine ⟨key f f2 w rfl rfl, ?_⟩
    intro log
    rw [key _ _ (w.withLog log) rfl rfl]
    rfl

/-- Witness for C4 on `TestCustom`: with the command "debug-id-1" attached and the gate on,
the override runs once on that command and the production function does not run; for the
identifier "unknown" the production function runs once and its error comes back. -/
theorem Custom_runs_exactly_one_witness :
    Custom testCtx "debug-id-1" testFailing testHandler testWorld =
        (some (.caller 8 "handler error"), ⟨true, testHeap, 10⟩) ∧
      Custom testCtx "unknown" testFailing testHandler testWorld =
        (some (.caller 7 "production implementation error"), ⟨true, testHeap, 1⟩) :=
  have h := Custom_runs_exactly_one testCtx "unknown" testFailing testHandler testWorld
  ⟨rfl, h.2 (by
    rintro ⟨_, d, hd, hid⟩
    simp [attached, Commands, Ctx.Value, testCtx, testWorld, testHeap, Heap.elems] at hd
    rw [hd] at hid
    exact absurd hid (by decide)) |>.1⟩

/-- C5: with the gate on and a command with `Id` equal to `id` attached, `Do` is one run of the
handler on the first such command: it returns the error of the handler (nil when the handler
returns nil) with the effect of the handler, and a recording handler records exactly that one
invocation. -/
theorem Do_runs_handler {σ : Type} (ctx : Ctx) (id : String)
    (handler : Command → Fn σ (Option GoError)) (w : World σ) (c : Command)
    (hon : w.enabled = true) (hfirst : IsFirstWithId (attached w.heap ctx) id c) :
    Do ctx id handler w = handler c w ∧
      ∀ log, (Do ctx id (fun d => traced (.handler d) (handler d)) (w.withLog log)).2.vars.1 =
        log ++ [.handler c] := by
  refine ⟨Do_found ctx id handler w c hon hfirst, ?_⟩
  intro log
  rw [Do_found ctx id _ (w.withLog log) c hon hfirst]
  rfl

/-- Witness for C5 on `TestDo/debug code found, return error`. -/
theorem Do_runs_handler_witness :
    IsFirstWithId (attached testWorld.heap testCtx) "debug-id-1" ⟨"debug-id-1", testPayload⟩ ∧
      Do testCtx "debug-id-1" testHandler testWorld =
        (some (.caller 8 "handler error"), ⟨true, testHeap, 10⟩) :=
  have hfirst : IsFirstWithId (attached testWorld.heap testCtx) "debug-id-1"
      ⟨"debug-id-1", testPayload⟩ := ⟨[], [], rfl, rfl, by simp⟩
  ⟨hfirst, (Do_runs_handler testCtx "debug-id-1" testHandler testWorld _ rfl hfirst).1⟩

/-- C6: when the gate is off, or no command with `Id` equal to `id` is attached to the context
(in particular when none is attached at all), `Do` returns nil, changes nothing, and a recording
handler records no invocation. -/
theorem Do_is_noop {σ : Type} (ctx : Ctx) (id : String)
    (handler : Command → Fn σ (Option GoError)) (w : World σ)
    (h : w.enabled = false ∨ ∀ c ∈ attached w.heap ctx, c.Id ≠ id) :
    Do ctx id handler w = (none, w) ∧
      ∀ log, (Do ctx id (fun d => traced (.handler d) (handler d)) (w.withLog log)).2.vars.1 =
        log := by
  have key : ∀ {τ : Type} (g : Command → Fn τ (Option GoError)) (v : World τ),
      v.enabled = w.enabled → v.heap = w.heap → Do ctx id g v = (none, v) := by
    intro τ g v he hh
    rcases h with hoff | habs
    · exact Do_off ctx id g v (he.trans hoff)
    · exact Do_absent ctx id g v (by rw [hh]; exact habs)
  refine ⟨key handler w rfl rfl, ?_⟩
  intro log
  rw [key _ (w.withLog log) rfl rfl]
  rfl

/-- Witness for C6 on `TestDo/unknown debug code`, and on the background context. -/
theorem Do_is_noop_witness :
    Do testCtx "unknown" testHandler testWorld = (none, testWorld) ∧
      Do .Background "debug-id-1" testHandler testWorld = (none, testWorld) :=
  ⟨(Do_is_noop testCtx "unknown" testHandler testWorld (Or.inr (by
      intro c hc
      simp [attached, Commands, Ctx.Value, testCtx, testWorld, testHeap, Heap.elems] at hc
      rw [hc]
      decide))).1,
    (Do_is_noop .Background "debug-id-1" testHandler testWorld (Or.inr (by
      intro c hc
      rw [attached_Background] at hc
      exact absurd hc (List.not_mem_nil c)))).1⟩

/-- C7: with the gate off the context plays no part. For any two contexts, whatever is
attached to them, `Wrap` and `Custom` are one run of `f` and `Do` returns nil and changes
nothing; recording functions record one invocation of `f` for `Wrap` and `Custom`, none of
`f2` and none of the handler. -/
theorem gate_off_ignores_context {σ : Type} (T : GoType) (c1 c2 : Ctx) (id : String)
    (f : Fn σ (Any × Option GoError)) (g : Fn σ (Option GoError))
    (f2 handler : Command → Fn σ (Option GoError)) (w : World σ) (hoff : w.enabled = false) :
    (Wrap T c1 id f w = f w ∧ Wrap T c2 id f w = f w) ∧
      (Custom c1 id g f2 w = g w ∧ Custom c2 id g f2 w = g w) ∧
      (Do c1 id handler w = (none, w) ∧ Do c2 id handler w = (none, w)) ∧
      ∀ (ctx : Ctx) (log : List Call),
        (Wrap T ctx id (traced .production f) (w.withLog log)).2.vars.1 =
          log ++ [.production] ∧
        (Custom ctx id (traced .production g) (fun d => traced (.override d) (f2 d))
          (w.withLog log)).2.vars.1 = log ++ [.production] ∧
        (Do ctx id (fun d => traced (.handler d) (handler d)) (w.withLog log)).2.vars.1 =
          log := by
  refine ⟨⟨Wrap_off T c1 id f w hoff, Wrap_off T c2 id f w hoff⟩,
    ⟨Custom_off c1 id g f2 w hoff, Custom_off c2 id g f2 w hoff⟩,
    ⟨Do_off c1 id handler w hoff, Do_off c2 id handler w hoff⟩, ?_⟩
  intro ctx log
  have hoff' : (w.withLog log).enabled = false := hoff
  rw [Wrap_off T ctx id _ _ hoff', Custom_off ctx id _ _ _ hoff', Do_off ctx id _ _ hoff']
  exact ⟨rfl, rfl, rfl⟩

/-- Witness for C7: with the gate off, the context of the tests (which has the command
"debug-id-1") and the background context give the same results. -/
theorem gate_off_ignores_context_witness :
    Wrap (.slice .string) testCtx "debug-id-1" testProduction ⟨false, testHeap, 0⟩ =
        Wrap (.slice .string) .Background "debug-id-1" testProduction ⟨false, testHeap, 0⟩ ∧
      Custom testCtx "debug-id-1" testFailing testHandler ⟨false, testHeap, 0⟩ =
        (some (.caller 7 "production implementation error"), ⟨false, testHeap, 1⟩) ∧
      Do testCtx "debug-id-1" testHandler ⟨false, testHeap, 0⟩ = (none, ⟨false, testHeap, 0⟩) :=
  have h := gate_off_ignores_context (.slice .string) testCtx .Background "debug-id-1"
    testProduction testFailing testHandler testHandler ⟨false, testHeap, (0 : Nat)⟩ rfl
  ⟨h.1.1.trans h.1.2.symm, h.2.1.1, h.2.2.1.1⟩


/-! ## Lemmas on `append` and on attaching -/

theorem take_succ_store (slots : List Command) (n : Nat) (c : Command) :
    (slots.take n ++ c :: slots.drop (n + 1)).take (n + 1) = slots.take n ++ [c] := by
  rw [List.take_append_eq_append_take]
  have hlen : (slots.take n).length ≤ n := by simp
  rw [List.take_of_length_le (by omega)]
  congr 1
  by_cases hn : n ≤ slots.length
  · have : (slots.take n).length = n := by simp [hn]
    rw [this]
    simp
  · have : slots.drop (n + 1) = [] := List.drop_of_length_le (by omega)
    rw [this]
    have h1 : 0 < n + 1 - (slots.take n).length := by omega
    obtain ⟨k, hk⟩ := Nat.exists_eq_succ_of_ne_zero (Nat.pos_iff_ne_zero.mp h1)
    rw [hk]
    simp

theorem elems_length_le (h : Heap) (s : Slice) : (h.elems s).length ≤ s.len := by
  unfold Heap.elems
  cases h.arrays.get? s.array <;> simp

theorem elems_append (grow : Nat → Nat) (h : Heap) (s : Slice) (c : Command)
    (hal : h.Allocated s) :
    (append grow h s c).2.elems (append grow h s c).1 = h.elems s ++ [c] := by
  unfold append
  by_cases hroom : s.len < s.cap
  · have hlt : s.array < h.arrays.length := hal hroom
    simp only [hroom, if_true]
    unfold Heap.store Heap.elems
    have hget : h.arrays.get? s.array = some (h.arrays.get ⟨s.array, hlt⟩) :=
      List.get?_eq_get hlt
    rw [hget]
    simp only [List.get?_eq_getElem?]
    rw [List.getElem?_set_self (by simpa using hlt)]
    exact take_succ_store _ _ _
  · simp only [hroom, if_false]
    have hle := elems_length_le h s
    unfold Heap.elems at *
    simp only [List.get?_eq_getElem?] at *
    rw [List.getElem?_append_right (Nat.le_refl _)]
    simp only [Nat.sub_self, List.getElem?_cons_zero]
    apply List.take_of_length_le
    simp only [List.length_append, List.length_singleton]
    omega

theorem append_arrays_length (grow : Nat → Nat) (h : Heap) (s : Slice) (c : Command) :
    h.arrays.length ≤ (append grow h s c).2.arrays.length := by
  unfold append
  by_cases hroom : s.len < s.cap
  · simp only [hroom, if_true]
    unfold Heap.store
    cases h.arrays.get? s.array <;> simp
  · simp [hroom]

theorem Allocated_append_other (grow : Nat → Nat) (h : Heap) (s t : Slice) (c : Command)
    (hal : h.Allocated t) : (append grow h s c).2.Allocated t := fun hroom =>
  Nat.lt_of_lt_of_le (hal hroom) (append_arrays_length grow h s c)

theorem Allocated_append (grow : Nat → Nat) (h : Heap) (s : Slice) (c : Command)
    (hal : h.Allocated s) : (append grow h s c).2.Allocated (append grow h s c).1 := by
  by_cases hroom : s.len < s.cap
  · intro _
    have hlt : s.array < h.arrays.length := hal hroom
    have hle := append_arrays_length grow h s c
    have harr : (append grow h s c).1.array = s.array := by simp [append, hroom]
    omega
  · intro _
    simp [append, hroom]

theorem Allocated_nil (h : Heap) : h.Allocated Slice.nil := fun hroom =>
  absurd hroom (by decide)

theorem Commands_WithValue (ctx : Ctx) (s : Slice) :
    Commands (.WithValue ctx .key (.commands s)) = (s, none) := by
  simp [Commands, Ctx.Value]

theorem Context_eq (grow : Nat → Nat) (h : Heap) (ctx : Ctx) (id : String) (payload : Any) :
    Context grow h ctx id payload =
      (.ok (.WithValue ctx .key (.commands (append grow h (Commands ctx).1 ⟨id, payload⟩).1)),
        (append grow h (Commands ctx).1 ⟨id, payload⟩).2) := by
  unfold Context NewCommand
  rcases Commands_cases ctx with hc | ⟨c, hc⟩
  · rw [hc]
    simp [errorsIs]
  · rw [hc]

theorem attached_of_error (h : Heap) (ctx : Ctx) (hne : (Commands ctx).2 ≠ none) :
    attached h ctx = [] := by
  rcases Commands_cases ctx with hc | ⟨c, hc⟩
  · simp [attached, hc, elems_nil]
  · exact absurd (by rw [hc]) hne

theorem attached_Context (grow : Nat → Nat) (h : Heap) (ctx : Ctx) (id : String) (payload : Any)
    (hal : h.Allocated (Commands ctx).1) :
    attached (append grow h (Commands ctx).1 ⟨id, payload⟩).2
        (.WithValue ctx .key (.commands (append grow h (Commands ctx).1 ⟨id, payload⟩).1)) =
      attached h ctx ++ [⟨id, payload⟩] := by
  unfold attached
  rw [Commands_WithValue]
  exact elems_append grow h _ _ hal


theorem Allocated_Context (grow : Nat → Nat) (h : Heap) (ctx : Ctx) (id : String) (payload : Any)
    (hal : h.Allocated (Commands ctx).1) :
    ∃ ctx' h', Context grow h ctx id payload = (.ok ctx', h') ∧
      h'.Allocated (Commands ctx').1 ∧ ∀ t, h.Allocated t → h'.Allocated t := by
  refine ⟨_, _, Context_eq grow h ctx id payload, ?_, ?_⟩
  · rw [Commands_WithValue]
    exact Allocated_append grow h _ _ hal
  · intro t ht
    exact Allocated_append_other grow h _ t _ ht

theorem Commands_WithValue_foreign (ctx : Ctx) (name : String) (v : CtxValue) :
    Commands (.WithValue ctx (.foreign name) v) = Commands ctx := by
  simp [Commands, Ctx.Value]

theorem Commands_Derived (ctx : Ctx) : Commands (.Derived ctx) = Commands ctx := rfl


/-! ## Attaching and looking up -/

/-- C8: `Context` returns a nil error and a context on which `Commands` succeeds; the commands
attached to the new context are those attached to the old one (none when `Commands` fails on
it with `NoCommandsFound`) followed by the one new command made of `id` and the payload. The
new context can be attached to in turn, so two attachments are listed in the order made. The
hypothesis says that the slice of the old context, if it has spare capacity, has its backing
array in the heap; it holds for the nil slice and `Context` keeps it (`Allocated_Context`). -/
theorem Context_appends (grow : Nat → Nat) (h : Heap) (ctx : Ctx) (id : String) (payload : Any)
    (hal : h.Allocated (Commands ctx).1) :
    ∃ ctx' h', Context grow h ctx id payload = (.ok ctx', h') ∧
      (∃ s, Commands ctx' = (s, none)) ∧
      attached h' ctx' = attached h ctx ++ [⟨id, payload⟩] ∧
      ((Commands ctx).2 = some .NoCommandsFound → attached h' ctx' = [⟨id, payload⟩]) ∧
      ∀ id2 payload2, ∃ ctx2 h2, Context grow h' ctx' id2 payload2 = (.ok ctx2, h2) ∧
        attached h2 ctx2 = attached h ctx ++ [⟨id, payload⟩, ⟨id2, payload2⟩] := by
  refine ⟨_, _, Context_eq grow h ctx id payload, ⟨_, Commands_WithValue _ _⟩,
    attached_Context grow h ctx id payload hal, ?_, ?_⟩
  · intro hfail
    rw [attached_Context grow h ctx id payload hal,
      attached_of_error h ctx (by rw [hfail]; exact Option.some_ne_none _)]
    rfl
  · intro id2 payload2
    refine ⟨_, _, Context_eq grow _ _ id2 payload2, ?_⟩
    have hal' : (append grow h (Commands ctx).1 ⟨id, payload⟩).2.Allocated
        (Commands (.WithValue ctx .key
          (.commands (append grow h (Commands ctx).1 ⟨id, payload⟩).1))).1 := by
      rw [Commands_WithValue]
      exact Allocated_append grow h _ _ hal
    rw [attached_Context grow _ _ id2 payload2 hal', attached_Context grow h ctx id payload hal]
    simp

/-- Witness for C8: attaching "a" and then "b" to the background context lists the two
commands in that order. -/
theorem Context_appends_witness :
    Heap.empty.Allocated (Commands .Background).1 ∧
      ∃ ctx' h', Context doubling Heap.empty .Background "a" intOne = (.ok ctx', h') ∧
        (∃ s, Commands ctx' = (s, none)) ∧
        attached h' ctx' = attached Heap.empty .Background ++ [⟨"a", intOne⟩] ∧
        ((Commands .Background).2 = some .NoCommandsFound → attached h' ctx' = [⟨"a", intOne⟩]) ∧
        ∀ id2 payload2, ∃ ctx2 h2, Context doubling h' ctx' id2 payload2 = (.ok ctx2, h2) ∧
          attached h2 ctx2 =
            attached Heap.empty .Background ++ [⟨"a", intOne⟩, ⟨id2, payload2⟩] :=
  ⟨Allocated_nil _,
    Context_appends doubling Heap.empty .Background "a" intOne (Allocated_nil _)⟩

/-- C9: the lookup `command` succeeds exactly when some attached command has `Id` equal to
`id`, and what it returns is the first such command in attachment order. In particular, after
attaching `id` twice to a context that did not have it, the lookup returns the command of the
first of the two attachments. -/
theorem command_first_match (h : Heap) (ctx : Ctx) (id : String) :
    ((∃ c, command h ctx id = .ok c) ↔ ∃ d ∈ attached h ctx, d.Id = id) ∧
      (∀ c, command h ctx id = .ok c ↔ IsFirstWithId (attached h ctx) id c) ∧
      ∀ (grow : Nat → Nat) (p1 p2 : Any), h.Allocated (Commands ctx).1 →
        (∀ d ∈ attached h ctx, d.Id ≠ id) →
        ∃ c1 h1 c2 h2, Context grow h ctx id p1 = (.ok c1, h1) ∧
          Context grow h1 c1 id p2 = (.ok c2, h2) ∧
          attached h2 c2 = attached h ctx ++ [⟨id, p1⟩, ⟨id, p2⟩] ∧
          command h2 c2 id = .ok ⟨id, p1⟩ := by
  refine ⟨?_, command_ok_iff h ctx id, ?_⟩
  · constructor
    · rintro ⟨c, hc⟩
      obtain ⟨before, after, heq, hid, _⟩ := (command_ok_iff h ctx id c).mp hc
      exact ⟨c, by rw [heq]; simp, hid⟩
    · intro hex
      obtain ⟨c, hc⟩ := isFirst_of_mem id _ hex
      exact ⟨c, (command_ok_iff h ctx id c).mpr hc⟩
  · intro grow p1 p2 hal habs
    have hal' : (append grow h (Commands ctx).1 ⟨id, p1⟩).2.Allocated
        (Commands (.WithValue ctx .key
          (.commands (append grow h (Commands ctx).1 ⟨id, p1⟩).1))).1 := by
      rw [Commands_WithValue]
      exact Allocated_append grow h _ _ hal
    have hatt := attached_Context grow _ _ id p2 hal'
    rw [attached_Context grow h ctx id p1 hal] at hatt
    refine ⟨_, _, _, _, Context_eq grow h ctx id p1, Context_eq grow _ _ id p2, ?_, ?_⟩
    · rw [hatt]
      simp
    · rw [command_ok_iff, hatt]
      exact ⟨attached h ctx, [⟨id, p2⟩], by simp, rfl, habs⟩

/-- Witness for C9: "a" attached with payload 1 and then with payload 2; the lookup of "a"
returns the command with payload 1. -/
theorem command_first_match_witness :
    Context doubling Heap.empty .Background "a" intOne = (.ok twiceCtx1, twiceHeap1) ∧
      Context doubling twiceHeap1 twiceCtx1 "a" intTwo = (.ok twiceCtx2, twiceHeap2) ∧
      command twiceHeap2 twiceCtx2 "a" = .ok ⟨"a", intOne⟩ ∧
      IsFirstWithId (attached twiceHeap2 twiceCtx2) "a" ⟨"a", intOne⟩ :=
  ⟨rfl, rfl, rfl,
    ((command_first_match twiceHeap2 twiceCtx2 "a").2.1 ⟨"a", intOne⟩).mp rfl⟩

/-- C10: a failing lookup `command` fails with `CommandNotFound`, both when the context has no
command sequence at all and when the sequence has no entry with that `Id`; it never fails with
`NoCommandsFound`. `Commands` on a context without a sequence fails with `NoCommandsFound`,
which is a different error value, also for `errors.Is`. -/
theorem command_fails_with_CommandNotFound (h : Heap) (ctx : Ctx) (id : String) :
    (∀ e, command h ctx id = .error e → e = .CommandNotFound) ∧
      ((Commands ctx).2 ≠ none → command h ctx id = .error .CommandNotFound) ∧
      ((∀ d ∈ attached h ctx, d.Id ≠ id) → command h ctx id = .error .CommandNotFound) ∧
      command h ctx id ≠ .error .NoCommandsFound ∧
      ((∀ s, ctx.Value .key ≠ .commands s) →
        Commands ctx = (Slice.nil, some .NoCommandsFound)) ∧
      GoError.NoCommandsFound ≠ GoError.CommandNotFound ∧
      errorsIs .NoCommandsFound .CommandNotFound = false ∧
      errorsIs .CommandNotFound .NoCommandsFound = false := by
  have hkind : ∀ e, command h ctx id = .error e → e = .CommandNotFound := by
    intro e he
    rw [command_eq_scan] at he
    exact ((scan_error_iff id _ e).mp he).1
  refine ⟨hkind, ?_, command_error_of_absent h ctx id, ?_, ?_, by decide, by decide, by decide⟩
  · intro hne
    apply command_error_of_absent
    intro d hd
    rw [attached_of_error h ctx hne] at hd
    exact absurd hd (List.not_mem_nil d)
  · intro hbad
    exact absurd (hkind _ hbad) (by decide)
  · intro hno
    unfold Commands
    cases hv : ctx.Value .key with
    | nil => rfl
    | commands s => exact absurd hv (hno s)
    | foreign v => rfl

/-- Witness for C10: on the background context the lookup fails with `CommandNotFound` while
`Commands` fails with `NoCommandsFound`; on the context of the tests the lookup of an
identifier that was not attached fails with `CommandNotFound` although `Commands` succeeds. -/
theorem command_fails_with_CommandNotFound_witness :
    command testHeap .Background "debug-id-1" = .error .CommandNotFound ∧
      Commands .Background = (Slice.nil, some .NoCommandsFound) ∧
      command testHeap testCtx "unknown" = .error .CommandNotFound ∧
      Commands testCtx = (⟨0, 1, 1⟩, none) :=
  have h := command_fails_with_CommandNotFound testHeap .Background "debug-id-1"
  ⟨h.2.1 (by simp [Commands, Ctx.Value]), h.2.2.2.2.1 (by simp [Ctx.Value]),
    (command_fails_with_CommandNotFound testHeap testCtx "unknown").2.2.1 (by
      intro d hd
      simp [attached, Commands, Ctx.Value, testCtx, testHeap, Heap.elems] at hd
      rw [hd]
      decide), rfl⟩


/-! ## Lemmas on what attaching leaves alone -/

theorem elems_append_self (grow : Nat → Nat) (h : Heap) (s : Slice) (c : Command)
    (hlen : (h.elems s).length = s.len) : (append grow h s c).2.elems s = h.elems s := by
  unfold append
  by_cases hroom : s.len < s.cap
  · simp only [hroom, if_true]
    unfold Heap.store
    cases hget : h.arrays.get? s.array with
    | none => rfl
    | some slots =>
      have hle : s.len ≤ slots.length := by
        unfold Heap.elems at hlen
        rw [hget] at hlen
        simp at hlen
        exact hlen
      have hlt : s.array < h.arrays.length := by
        rcases Nat.lt_or_ge s.array h.arrays.length with hlt | hge
        · exact hlt
        · rw [List.get?_eq_none.mpr hge] at hget
          exact absurd hget (by simp)
      unfold Heap.elems
      rw [hget]
      simp only [List.get?_eq_getElem?]
      rw [List.getElem?_set_self (by simpa using hlt)]
      simp only []
      rw [List.take_append_eq_append_take, List.take_take]
      simp [hle]
  · simp only [hroom, if_false]
    unfold Heap.elems at *
    simp only [List.get?_eq_getElem?] at *
    rcases Nat.lt_or_ge s.array h.arrays.length with hlt | hge
    · rw [List.getElem?_append_left hlt]
    · rw [List.getElem?_eq_none hge] at hlen ⊢
      have h0 : s.len = 0 := by simpa using hlen.symm
      simp only [h0, List.take_zero]
      split <;> rfl

theorem attached_parent_Context (grow : Nat → Nat) (h : Heap) (ctx : Ctx) (id : String)
    (payload : Any) (hv : h.Valid (Commands ctx).1) :
    attached (append grow h (Commands ctx).1 ⟨id, payload⟩).2 ctx = attached h ctx :=
  elems_append_self grow h _ _ hv.2

theorem Valid_nil (h : Heap) : h.Valid Slice.nil :=
  ⟨Allocated_nil h, by rw [elems_nil]; rfl⟩

theorem Valid_append (grow : Nat → Nat) (h : Heap) (s : Slice) (c : Command)
    (hv : h.Valid s) : (append grow h s c).2.Valid (append grow h s c).1 := by
  refine ⟨Allocated_append grow h s c hv.1, ?_⟩
  rw [elems_append grow h s c hv.1, List.length_append, hv.2]
  by_cases hroom : s.len < s.cap <;> simp [append, hroom]

theorem Valid_append_self (grow : Nat → Nat) (h : Heap) (s : Slice) (c : Command)
    (hv : h.Valid s) : (append grow h s c).2.Valid s :=
  ⟨Allocated_append_other grow h s s c hv.1, by rw [elems_append_self grow h s c hv.2]; exact hv.2⟩

theorem Value_key_of_Buildable (ctx : Ctx) (hb : ctx.Buildable) :
    (ctx.everAttached = false ∧ ctx.Value .key = .nil) ∨
      (ctx.everAttached = true ∧ ∃ s, ctx.Value .key = .commands s) := by
  induction ctx with
  | Background => exact Or.inl ⟨rfl, rfl⟩
  | WithValue parent k val ih =>
    cases k with
    | key =>
      obtain ⟨⟨s, hs⟩, _⟩ := hb
      exact Or.inr ⟨rfl, s, by simp [Ctx.Value, hs]⟩
    | foreign name =>
      have hp : parent.Buildable := hb
      have hval : (Ctx.WithValue parent (.foreign name) val).Value .key = parent.Value .key := by
        simp [Ctx.Value]
      rw [hval]
      exact ih hp
  | Derived parent ih =>
    exact ih hb


/-! ## Listing, and what attaching leaves alone -/

/-- C11: a failure of `Commands` is the error `NoCommandsFound` together with the nil slice,
and on a context that programs can build it happens exactly when no command was attached to
the context or to a context it derives from. Otherwise `Commands` returns the stored slice as
it is; in particular on the context `Context` returns it succeeds, and the slice lists the
commands attached before followed by the new one, so it is not empty. -/
theorem Commands_fails_iff_never_attached (ctx : Ctx) (hb : ctx.Buildable) :
    (∀ s e, Commands ctx = (s, some e) → s = Slice.nil ∧ e = .NoCommandsFound) ∧
      ((Commands ctx).2 ≠ none ↔ ctx.everAttached = false) ∧
      (Commands ctx = (Slice.nil, some .NoCommandsFound) ↔ ctx.everAttached = false) ∧
      (∀ s, ctx.Value .key = .commands s → Commands ctx = (s, none)) ∧
      ∀ (grow : Nat → Nat) (h : Heap) (id : String) (payload : Any),
        h.Allocated (Commands ctx).1 →
        ∃ ctx' h' s, Context grow h ctx id payload = (.ok ctx', h') ∧
          ctx'.Buildable ∧ ctx'.everAttached = true ∧
          Commands ctx' = (s, none) ∧
          h'.elems s = attached h ctx ++ [⟨id, payload⟩] ∧ h'.elems s ≠ [] := by
  have hfail : ∀ s e, Commands ctx = (s, some e) → s = Slice.nil ∧ e = .NoCommandsFound := by
    intro s e he
    rcases Commands_cases ctx with hc | ⟨c, hc⟩
    · rw [hc] at he
      injection he with h1 h2
      injection h2 with h2
      exact ⟨h1.symm, h2.symm⟩
    · rw [hc] at he
      injection he with _ h2
      exact absurd h2 (by simp)
  have hiff : Commands ctx = (Slice.nil, some .NoCommandsFound) ↔ ctx.everAttached = false := by
    rcases Value_key_of_Buildable ctx hb with ⟨hne, hval⟩ | ⟨hev, s, hval⟩
    · simp [Commands, hval, hne]
    · simp [Commands, hval, hev]
  refine ⟨hfail, ?_, hiff, ?_, ?_⟩
  · rw [← hiff]
    constructor
    · intro hne
      rcases Commands_cases ctx with hc | ⟨c, hc⟩
      · exact hc
      · exact absurd (by rw [hc]) hne
    · intro hc
      rw [hc]
      simp
  · intro s hs
    simp [Commands, hs]
  · intro grow h id payload hal
    refine ⟨_, _, _, Context_eq grow h ctx id payload, ⟨⟨_, rfl⟩, hb⟩, rfl,
      Commands_WithValue _ _, elems_append grow h _ _ hal, ?_⟩
    rw [elems_append grow h _ _ hal]
    simp

/-- Witness for C11: `Commands` fails on the background context, also under a value of another
package and a cancellation, and succeeds with one command after `Context`. -/
theorem Commands_fails_iff_never_attached_witness :
    Commands (.Derived (.WithValue .Background (.foreign "user") (.foreign intOne))) =
        (Slice.nil, some .NoCommandsFound) ∧
      Context doubling Heap.empty .Background "debug-id-1" testPayload = (.ok testCtx, testHeap) ∧
      Commands (.Derived testCtx) = (⟨0, 1, 1⟩, none) ∧
      testHeap.elems ⟨0, 1, 1⟩ = [⟨"debug-id-1", testPayload⟩] :=
  ⟨(Commands_fails_iff_never_attached
      (.Derived (.WithValue .Background (.foreign "user") (.foreign intOne))) trivial).2.2.1.mpr
      rfl,
    rfl, rfl, rfl⟩

/-- C12: attaching to a context does not change what that context shows. After
`Context(C, id, p)` the commands of `C` are the same in the new heap as before, so `command`
on `C` gives the same result for every identifier and the slice of `C` stays valid; if no
command of `C` has the `Id`, then `command(C, id)` still fails with `CommandNotFound` and
`Wrap`, `Custom` and `Do` on `C` still are one run of `f`, respectively a no-op. -/
theorem Context_leaves_parent (grow : Nat → Nat) (h : Heap) (ctx : Ctx) (id : String)
    (payload : Any) (hv : h.Valid (Commands ctx).1) :
    ∃ ctx' h', Context grow h ctx id payload = (.ok ctx', h') ∧
      attached h' ctx = attached h ctx ∧
      h'.Valid (Commands ctx).1 ∧
      (∀ id2, command h' ctx id2 = command h ctx id2) ∧
      ((∀ d ∈ attached h ctx, d.Id ≠ id) →
        command h' ctx id = .error .CommandNotFound ∧
        ∀ (σ : Type) (enabled : Bool) (vars : σ) (T : GoType)
          (f : Fn σ (Any × Option GoError)) (g : Fn σ (Option GoError))
          (f2 handler : Command → Fn σ (Option GoError)),
          Wrap T ctx id f ⟨enabled, h', vars⟩ = f ⟨enabled, h', vars⟩ ∧
          Custom ctx id g f2 ⟨enabled, h', vars⟩ = g ⟨enabled, h', vars⟩ ∧
          Do ctx id handler ⟨enabled, h', vars⟩ = (none, ⟨enabled, h', vars⟩)) := by
  have hatt := attached_parent_Context grow h ctx id payload hv
  refine ⟨_, _, Context_eq grow h ctx id payload, hatt, Valid_append_self grow h _ _ hv, ?_, ?_⟩
  · intro id2
    rw [command_eq_scan, command_eq_scan, hatt]
  · intro habs
    have habs' : ∀ d ∈ attached (append grow h (Commands ctx).1 ⟨id, payload⟩).2 ctx,
        d.Id ≠ id := by
      rw [hatt]
      exact habs
    refine ⟨command_error_of_absent _ ctx id habs', ?_⟩
    intro σ enabled vars T f g f2 handler
    exact ⟨Wrap_absent T ctx id f _ habs', Custom_absent ctx id g f2 _ habs',
      Do_absent ctx id handler _ habs'⟩

/-- Witness for C12: after attaching "x" to the context with "a", "b" and "c", whose slice has
spare capacity, that context still lists "a", "b" and "c" and has no command "x". -/
theorem Context_leaves_parent_witness :
    heapC.Valid (Commands ctxC).1 ∧
      Context doubling heapC ctxC "x" intOne = (.ok ctxX, heapX) ∧
      attached heapX ctxC = abc ∧
      command heapX ctxC "x" = .error .CommandNotFound ∧
      ∃ ctx' h', Context doubling heapC ctxC "x" intOne = (.ok ctx', h') ∧
        attached h' ctxC = attached heapC ctxC :=
  have hv : heapC.Valid (Commands ctxC).1 := ⟨fun _ => by decide, rfl⟩
  have h := Context_leaves_parent doubling heapC ctxC "x" intOne hv
  ⟨hv, rfl, rfl, rfl, by
    obtain ⟨c, k, h1, h2, _⟩ := h
    exact ⟨c, k, h1, h2⟩⟩

/-- C13, the code on two contexts derived from one parent whose slice has spare capacity.
Attaching "a", "b" and "c" to the background context gives a slice of length 3 and capacity 4.
Attaching "x" to that context stores the command in slot 3 of the shared array, and attaching
"y" to the same parent afterwards stores into slot 3 again: the context made for "x" then lists
"a", "b", "c", "y", its lookup of "x" fails and its lookup of "y" succeeds. -/
theorem Context_siblings_share_storage :
    Context doubling Heap.empty .Background "a" intOne = (.ok ctxA, ⟨[[⟨"a", intOne⟩]]⟩) ∧
      Context doubling ⟨[[⟨"a", intOne⟩]]⟩ ctxA "b" intOne =
        (.ok ctxB, ⟨[[⟨"a", intOne⟩], [⟨"a", intOne⟩, ⟨"b", intOne⟩]]⟩) ∧
      Context doubling ⟨[[⟨"a", intOne⟩], [⟨"a", intOne⟩, ⟨"b", intOne⟩]]⟩ ctxB "c" intOne =
        (.ok ctxC, heapC) ∧
      Commands ctxC = (⟨2, 3, 4⟩, none) ∧
      Context doubling heapC ctxC "x" intOne = (.ok ctxX, heapX) ∧
      attached heapX ctxX = abc ++ [⟨"x", intOne⟩] ∧
      Context doubling heapX ctxC "y" intTwo = (.ok ctxY, heapY) ∧
      attached heapY ctxY = abc ++ [⟨"y", intTwo⟩] ∧
      attached heapY ctxX = abc ++ [⟨"y", intTwo⟩] ∧
      attached heapY ctxX ≠ attached heapC ctxC ++ [⟨"x", intOne⟩] ∧
      command heapX ctxX "x" = .ok ⟨"x", intOne⟩ ∧
      command heapY ctxX "x" = .error .CommandNotFound ∧
      command heapY ctxX "y" = .ok ⟨"y", intTwo⟩ :=
  ⟨rfl, rfl, rfl, rfl, rfl, rfl, rfl, rfl, rfl,
    fun h => absurd (congrArg (fun l => l.map Command.Id) h) (by decide),
    rfl, rfl, rfl⟩


theorem elems_append_full (grow : Nat → Nat) (h : Heap) (s t : Slice) (c : Command)
    (hfull : ¬ s.len < s.cap) (ht : t.array < h.arrays.length) :
    (append grow h s c).2.elems t = h.elems t := by
  unfold append
  simp only [hfull, if_false]
  unfold Heap.elems
  simp only [List.get?_eq_getElem?]
  rw [List.getElem?_append_left ht]

theorem Context_siblings_full (grow : Nat → Nat) (h : Heap) (ctx : Ctx) (id1 id2 : String)
    (p1 p2 : Any) (hv : h.Valid (Commands ctx).1)
    (hfull : ¬ (Commands ctx).1.len < (Commands ctx).1.cap) :
    ∃ c1 h1 c2 h2, Context grow h ctx id1 p1 = (.ok c1, h1) ∧
      Context grow h1 ctx id2 p2 = (.ok c2, h2) ∧
      attached h2 c1 = attached h ctx ++ [⟨id1, p1⟩] ∧
      attached h2 c2 = attached h ctx ++ [⟨id2, p2⟩] := by
  have hv1 := Valid_append_self grow h _ ⟨id1, p1⟩ hv
  refine ⟨_, _, _, _, Context_eq grow h ctx id1 p1, Context_eq grow _ ctx id2 p2, ?_, ?_⟩
  · have h1 := attached_Context grow h ctx id1 p1 hv.1
    unfold attached at h1 ⊢
    rw [Commands_WithValue] at h1 ⊢
    rw [elems_append_full grow _ _ _ _ hfull, h1]
    simp [append, hfull]
  · rw [attached_Context grow _ ctx id2 p2 hv1.1, attached_parent_Context grow h ctx id1 p1 hv]


/-! ## The gate -/

theorem Wrap_world {σ : Type} (T : GoType) (ctx : Ctx) (id : String)
    (f : Fn σ (Any × Option GoError)) (w : World σ) :
    Wrap T ctx id f w = f w ∨
      ∃ c : Command, Wrap T ctx id f w = ((c.Payload, none), w) ∨
        Wrap T ctx id f w =
          ((zeroValue T,
            some (.errorf ("unexpected payload type: " ++ fmtT c.Payload ++
              " (wanted: " ++ fmtT (zeroValue T) ++ ")"))), w) := by
  unfold Wrap
  cases w.enabled with
  | false => exact Or.inl rfl
  | true =>
    cases command w.heap ctx id with
    | error e => exact Or.inl rfl
    | ok c =>
      refine Or.inr ⟨c, ?_⟩
      by_cases hm : caseMatches c.Payload T = true
      · exact Or.inl (by simp [hm])
      · exact Or.inr (by simp [hm])

theorem Do_world {σ : Type} (ctx : Ctx) (id : String)
    (handler : Command → Fn σ (Option GoError)) (w : World σ) :
    Do ctx id handler w = (none, w) ∨ ∃ c, Do ctx id handler w = handler c w := by
  unfold Do
  cases w.enabled with
  | false => exact Or.inl rfl
  | true =>
    cases hc : command w.heap ctx id with
    | error e =>
      have he : e = .CommandNotFound := by
        rw [command_eq_scan] at hc
        exact ((scan_error_iff id _ e).mp hc).1
      subst he
      exact Or.inl rfl
    | ok c => exact Or.inr ⟨c, rfl⟩

theorem Custom_world {σ : Type} (ctx : Ctx) (id : String) (f : Fn σ (Option GoError))
    (f2 : Command → Fn σ (Option GoError)) (w : World σ) :
    Custom ctx id f f2 w = f w ∨ ∃ c, Custom ctx id f f2 w = f2 c w := by
  unfold Custom
  cases w.enabled with
  | false => exact Or.inl rfl
  | true =>
    cases command w.heap ctx id with
    | error e => exact Or.inl rfl
    | ok c => exact Or.inr ⟨c, rfl⟩

/-- C14: the hook `init` as a function of the variable ENVIRONMENT. It panics with
"ENVIRONMENT variable not set" when the variable is absent, panics with "debug build deployed
to production" when the lower-cased value is "production", and in every other case, the empty
string included, leaves the state as it is except that `enabled` is true. When the program
starts `enabled` is false, and `Wrap`, `Custom` and `Do` leave `enabled` as it is whenever the
functions of the caller do. -/
theorem init_sets_gate {σ : Type} (lookupEnv : String → Option String)
    (toLower : String → String) (w : World σ) :
    (lookupEnv "ENVIRONMENT" = none →
        init lookupEnv toLower w = .error "ENVIRONMENT variable not set") ∧
      (∀ e, lookupEnv "ENVIRONMENT" = some e → toLower e = "production" →
        init lookupEnv toLower w = .error "debug build deployed to production") ∧
      (∀ e, lookupEnv "ENVIRONMENT" = some e → toLower e ≠ "production" →
        init lookupEnv toLower w = .ok ⟨true, w.heap, w.vars⟩) ∧
      (lookupEnv "ENVIRONMENT" = some "" → toLower "" = "" →
        init lookupEnv toLower w = .ok ⟨true, w.heap, w.vars⟩) ∧
      (∀ vars : σ, (World.start vars).enabled = false) ∧
      (∀ (T : GoType) (ctx : Ctx) (id : String) (f : Fn σ (Any × Option GoError)),
        (∀ v, (f v).2.enabled = v.enabled) → (Wrap T ctx id f w).2.enabled = w.enabled) ∧
      (∀ (ctx : Ctx) (id : String) (f : Fn σ (Option GoError))
        (f2 : Command → Fn σ (Option GoError)),
        (∀ v, (f v).2.enabled = v.enabled) → (∀ c v, (f2 c v).2.enabled = v.enabled) →
        (Custom ctx id f f2 w).2.enabled = w.enabled) ∧
      (∀ (ctx : Ctx) (id : String) (handler : Command → Fn σ (Option GoError)),
        (∀ c v, (handler c v).2.enabled = v.enabled) →
        (Do ctx id handler w).2.enabled = w.enabled) := by
  have hok : ∀ e, lookupEnv "ENVIRONMENT" = some e → toLower e ≠ "production" →
      init lookupEnv toLower w = .ok ⟨true, w.heap, w.vars⟩ := by
    intro e he hne
    simp [init, he, hne]
  refine ⟨?_, ?_, hok, ?_, fun _ => rfl, ?_, ?_, ?_⟩
  · intro hnone
    simp [init, hnone]
  · intro e he hprod
    simp [init, he, hprod]
  · intro he hlow
    exact hok "" he (by rw [hlow]; decide)
  · intro T ctx id f hf
    rcases Wrap_world T ctx id f w with h | ⟨c, h | h⟩
    · rw [h]; exact hf w
    · rw [h]
    · rw [h]
  · intro ctx id f f2 hf hf2
    rcases Custom_world ctx id f f2 w with h | ⟨c, h⟩
    · rw [h]; exact hf w
    · rw [h]; exact hf2 c w
  · intro ctx id handler hh
    rcases Do_world ctx id handler w with h | ⟨c, h⟩
    · rw [h]
    · rw [h]; exact hh c w

/-- Witness for C14: without the variable, and with the value "Production", the hook panics;
with the empty value, and with the value "dev", the gate is on afterwards. -/
theorem init_sets_gate_witness :
    init (fun _ => none) asciiLower (World.start ()) = .error "ENVIRONMENT variable not set" ∧
      init (fun _ => some "Production") asciiLower (World.start ()) =
        .error "debug build deployed to production" ∧
      init (fun _ => some "") asciiLower (World.start ()) = .ok ⟨true, Heap.empty, ()⟩ ∧
      init (fun _ => some "dev") asciiLower (World.start ()) = .ok ⟨true, Heap.empty, ()⟩ :=
  have h := fun env => init_sets_gate env asciiLower (World.start ())
  ⟨(h (fun _ => none)).1 rfl,
    (h (fun _ => some "Production")).2.1 "Production" rfl (by decide),
    (h (fun _ => some "")).2.2.2.1 rfl (by decide),
    (h (fun _ => some "dev")).2.2.1 "dev" rfl (by decide)⟩

/-- C15: lookup failures do not reach the caller. `command` fails with `CommandNotFound` only
and `Commands` with `NoCommandsFound` only, so the test of `errors.Is` in `Do` and the one in
`Context` always succeed: `Context` never returns an error, and `Do` returns nil with nothing
changed or is one run of the handler. `Custom` is one run of `f` or of `f2`, and `Wrap` is one
run of `f`, or returns a payload with a nil error, or the zero value with the type-mismatch
error. -/
theorem lookup_failures_not_surfaced :
    (∀ h ctx id err, command h ctx id = .error err →
        err = .CommandNotFound ∧ errorsIs err .CommandNotFound = true) ∧
      (∀ ctx s err, Commands ctx = (s, some err) →
        err = .NoCommandsFound ∧ errorsIs err .NoCommandsFound = true) ∧
      (∀ grow h ctx id payload, ∃ ctx', (Context grow h ctx id payload).1 = .ok ctx') ∧
      (∀ (σ : Type) (ctx : Ctx) (id : String) (handler : Command → Fn σ (Option GoError))
        (w : World σ),
        Do ctx id handler w = (none, w) ∨ ∃ c, Do ctx id handler w = handler c w) ∧
      (∀ (σ : Type) (ctx : Ctx) (id : String) (f : Fn σ (Option GoError))
        (f2 : Command → Fn σ (Option GoError)) (w : World σ),
        Custom ctx id f f2 w = f w ∨ ∃ c, Custom ctx id f f2 w = f2 c w) ∧
      (∀ (σ : Type) (T : GoType) (ctx : Ctx) (id : String) (f : Fn σ (Any × Option GoError))
        (w : World σ),
        Wrap T ctx id f w = f w ∨
          ∃ c : Command, Wrap T ctx id f w = ((c.Payload, none), w) ∨
            Wrap T ctx id f w =
              ((zeroValue T,
                some (.errorf ("unexpected payload type: " ++ fmtT c.Payload ++
                  " (wanted: " ++ fmtT (zeroValue T) ++ ")"))), w)) := by
  refine ⟨?_, ?_, ?_, fun σ => Do_world, fun σ => Custom_world, fun σ => Wrap_world⟩
  · intro h ctx id err he
    rw [command_eq_scan] at he
    have := ((scan_error_iff id _ err).mp he).1
    subst this
    exact ⟨rfl, by decide⟩
  · intro ctx s err he
    rcases Commands_cases ctx with hc | ⟨c, hc⟩
    · rw [hc] at he
      injection he with _ h2
      injection h2 with h2
      subst h2
      exact ⟨rfl, by decide⟩
    · rw [hc] at he
      injection he with _ h2
      exact absurd h2 (by simp)
  · intro grow h ctx id payload
    exact ⟨_, by rw [Context_eq]⟩

/-- Witness for C15 on the tests: `Do` on an identifier that is not attached returns nil, and
on an attached one the error of the handler; `Context` on the background context succeeds. -/
theorem lookup_failures_not_surfaced_witness :
    Do testCtx "unknown" testHandler testWorld = (none, testWorld) ∧
      Do testCtx "debug-id-1" testHandler testWorld =
        testHandler ⟨"debug-id-1", testPayload⟩ testWorld ∧
      (∃ ctx', (Context doubling Heap.empty .Background "debug-id-1" testPayload).1 = .ok ctx') ∧
      errorsIs .CommandNotFound .CommandNotFound = true :=
  ⟨rfl, rfl, lookup_failures_not_surfaced.2.2.1 doubling Heap.empty .Background "debug-id-1"
    testPayload, (lookup_failures_not_surfaced.1 testHeap .Background "x" _ rfl).2⟩


/-! ## Lookups after attaching, and the first command only -/

theorem position_none_iff (id : String) (cs : List Command) :
    command.position id cs = none ↔ ∀ d ∈ cs, d.Id ≠ id := by
  induction cs with
  | nil => simp [command.position]
  | cons c rest ih =>
    unfold command.position
    by_cases hc : c.Id = id
    · simp [hc]
    · simp [hc, ih]

theorem position_append_of_some (id : String) (cs more : List Command) (i : Nat)
    (h : command.position id cs = some i) : command.position id (cs ++ more) = some i := by
  induction cs generalizing i with
  | nil => simp [command.position] at h
  | cons c rest ih =>
    rw [List.cons_append]
    unfold command.position at h ⊢
    by_cases hc : c.Id = id
    · simpa [hc] using h
    · simp only [hc, if_false] at h ⊢
      cases hp : command.position id rest with
      | none => rw [hp] at h; simp at h
      | some j =>
        rw [hp] at h
        rw [ih j hp]
        exact h

theorem position_append_of_none (id : String) (cs : List Command) (c : Command)
    (h : command.position id cs = none) (hc : c.Id = id) :
    command.position id (cs ++ [c]) = some cs.length := by
  induction cs with
  | nil => simp [command.position, hc]
  | cons d rest ih =>
    rw [List.cons_append]
    unfold command.position at h ⊢
    by_cases hd : d.Id = id
    · simp [hd] at h
    · simp only [hd, if_false] at h ⊢
      cases hp : command.position id rest with
      | none =>
        rw [ih hp]
        simp
      | some j => rw [hp] at h; simp at h

theorem position_lt (id : String) (cs : List Command) (i : Nat)
    (h : command.position id cs = some i) : i < cs.length := by
  induction cs generalizing i with
  | nil => simp [command.position] at h
  | cons c rest ih =>
    unfold command.position at h
    by_cases hc : c.Id = id
    · simp [hc] at h
      simp [← h]
    · simp only [hc, if_false] at h
      cases hp : command.position id rest with
      | none => rw [hp] at h; simp at h
      | some j =>
        rw [hp] at h
        simp at h
        have := ih j hp
        simp
        omega

theorem scan_ok_iff_position (id : String) (cs : List Command) (c : Command) :
    command.scan id cs = .ok c ↔
      ∃ i, command.position id cs = some i ∧ cs.get? i = some c := by
  induction cs with
  | nil => simp [command.scan, command.position]
  | cons d rest ih =>
    unfold command.scan command.position
    by_cases hd : d.Id = id
    · simp only [hd, if_true]
      constructor
      · intro h
        injection h with h
        exact ⟨0, rfl, by simp [h]⟩
      · rintro ⟨i, hi, hget⟩
        injection hi with hi
        subst hi
        simp at hget
        rw [hget]
    · simp only [hd, if_false]
      rw [ih]
      constructor
      · rintro ⟨i, hi, hget⟩
        exact ⟨i + 1, by simp [hi], by simpa using hget⟩
      · rintro ⟨i, hi, hget⟩
        cases hp : command.position id rest with
        | none => rw [hp] at hi; simp at hi
        | some j =>
          rw [hp] at hi
          simp at hi
          subst hi
          exact ⟨j, rfl, by simpa using hget⟩

theorem isFirst_append (cs more : List Command) (id : String) (c : Command)
    (h : IsFirstWithId cs id c) : IsFirstWithId (cs ++ more) id c := by
  obtain ⟨before, after, heq, hid, hno⟩ := h
  exact ⟨before, after ++ more, by simp [heq], hid, hno⟩

/-- C16: attaching does not change the result of a lookup that succeeds. If `command(C, id)`
returns `c`, then after `Context(C, id2, p)`, for `id2` equal to `id` or not, the lookup of
`id` on the new context returns `c`, found at the same position. The lookup of the attached
identifier on the new context always succeeds, and it stops at the position of the new
command, the last one, exactly when no command of `C` has that `Id`; it then returns the new
command. -/
theorem Context_keeps_lookup (grow : Nat → Nat) (h : Heap) (ctx : Ctx) (id id2 : String)
    (payload : Any) (hal : h.Allocated (Commands ctx).1) :
    ∃ ctx' h', Context grow h ctx id2 payload = (.ok ctx', h') ∧
      (∀ c, command h ctx id = .ok c →
        command h' ctx' id = .ok c ∧
          command.position id (attached h' ctx') = command.position id (attached h ctx)) ∧
      (id2 = id →
        ∃ c, command h' ctx' id = .ok c ∧
          (command.position id (attached h' ctx') = some (attached h ctx).length ↔
            ∀ d ∈ attached h ctx, d.Id ≠ id) ∧
          ((∀ d ∈ attached h ctx, d.Id ≠ id) → c = ⟨id, payload⟩) ∧
          (attached h' ctx').get? (attached h ctx).length = some ⟨id, payload⟩) := by
  have hatt := attached_Context grow h ctx id2 payload hal
  refine ⟨_, _, Context_eq grow h ctx id2 payload, ?_, ?_⟩
  · intro c hc
    rw [command_ok_iff] at hc
    constructor
    · rw [command_ok_iff, hatt]
      exact isFirst_append _ _ id c hc
    · rw [hatt]
      obtain ⟨i, hi, _⟩ := (scan_ok_iff_position id _ c).mp ((scan_ok_iff id _ c).mpr hc)
      rw [hi]
      exact position_append_of_some id _ _ i hi
  · intro heq
    subst heq
    have hnew : (attached h ctx ++ [(⟨id2, payload⟩ : Command)]).get? (attached h ctx).length =
        some ⟨id2, payload⟩ := by simp
    by_cases habs : ∀ d ∈ attached h ctx, d.Id ≠ id2
    · refine ⟨⟨id2, payload⟩, ?_, ?_, fun _ => rfl, by rw [hatt]; exact hnew⟩
      · rw [command_ok_iff, hatt]
        exact ⟨attached h ctx, [], rfl, rfl, habs⟩
      · rw [hatt]
        exact ⟨fun _ => habs, fun _ =>
          position_append_of_none id2 _ _ ((position_none_iff id2 _).mpr habs) rfl⟩
    · have hex : ∃ d ∈ attached h ctx, d.Id = id2 := by
        by_contra hcon
        exact habs (fun d hd hid => hcon ⟨d, hd, hid⟩)
      obtain ⟨c, hc⟩ := isFirst_of_mem id2 _ hex
      refine ⟨c, ?_, ?_, fun hno => absurd hno habs, by rw [hatt]; exact hnew⟩
      · rw [command_ok_iff, hatt]
        exact isFirst_append _ _ id2 c hc
      · rw [hatt]
        constructor
        · intro hpos
          obtain ⟨i, hi, _⟩ := (scan_ok_iff_position id2 _ c).mp ((scan_ok_iff id2 _ c).mpr hc)
          rw [position_append_of_some id2 _ _ i hi] at hpos
          injection hpos with hpos
          have := position_lt id2 _ i hi
          omega
        · intro hno
          exact absurd hno habs

/-- Witness for C16: with "a", "b" and "c" attached, attaching "a" again leaves the lookup of
"a" at the first command, and attaching "x" makes the lookup of "x" return the new command. -/
theorem Context_keeps_lookup_witness :
    heapC.Allocated (Commands ctxC).1 ∧
      command heapC ctxC "a" = .ok ⟨"a", intOne⟩ ∧
      (∃ ctx' h', Context doubling heapC ctxC "a" intTwo = (.ok ctx', h') ∧
        command h' ctx' "a" = .ok ⟨"a", intOne⟩) ∧
      command heapX ctxX "x" = .ok ⟨"x", intOne⟩ :=
  have hal : heapC.Allocated (Commands ctxC).1 := fun _ => by decide
  ⟨hal, rfl, by
    obtain ⟨c, k, h1, h2, _⟩ := Context_keeps_lookup doubling heapC ctxC "a" "a" intTwo hal
    exact ⟨c, k, h1, (h2 _ rfl).1⟩, rfl⟩


theorem not_HasType_nil (T : GoType) : ¬ HasType none T := by
  rintro ⟨b, hb, _⟩
  exact absurd hb (by simp)

/-- C17: `Wrap` looks at the first command with the requested `Id` only. With the gate on,
when the first such command has a payload that is not of type `T` and a later command with the
same `Id` has a payload of type `T`, `Wrap` returns the zero value of `T` and the type-mismatch
error built from the payload of the first command; it does not return the later payload,
although that command is attached and its payload would take the case `T`, the world is as
before and a recording `f` records no invocation. -/
theorem Wrap_first_command_only {σ : Type} (T : GoType) (ctx : Ctx) (id : String)
    (f : Fn σ (Any × Option GoError)) (w : World σ) (c1 c2 : Command)
    (before mid after : List Command) (hon : w.enabled = true)
    (hatt : attached w.heap ctx = before ++ c1 :: (mid ++ c2 :: after))
    (hno : ∀ d ∈ before, d.Id ≠ id) (h1 : c1.Id = id) (hbad : ¬ HasType c1.Payload T)
    (h2 : c2.Id = id) (hgood : HasType c2.Payload T) :
    Wrap T ctx id f w =
        ((zeroValue T,
          some (.errorf ("unexpected payload type: " ++ fmtT c1.Payload ++
            " (wanted: " ++ fmtT (zeroValue T) ++ ")"))), w) ∧
      Wrap T ctx id f w ≠ ((c2.Payload, none), w) ∧
      (c2 ∈ attached w.heap ctx ∧ c2.Id = id ∧ caseMatches c2.Payload T = true) ∧
      ∀ log, (Wrap T ctx id (traced .production f) (w.withLog log)).2.vars.1 = log := by
  have hfirst : IsFirstWithId (attached w.heap ctx) id c1 := ⟨before, _, hatt, h1, hno⟩
  have hw := Wrap_mismatch T ctx id f w c1 hon hfirst hbad
  refine ⟨hw, ?_, ⟨by rw [hatt]; simp, h2, (caseMatches_iff _ _).mpr hgood⟩, ?_⟩
  · rw [hw]
    intro heq
    have herr := congrArg (fun r => r.1.2) heq
    simp at herr
  · intro log
    rw [Wrap_mismatch T ctx id _ (w.withLog log) c1 hon hfirst hbad]
    rfl

/-- Witness for C17: "invalid" attached with a nil payload and then with the string "boom";
`Wrap[string]` gives the empty string and the type-mismatch error for the nil payload. -/
theorem Wrap_first_command_only_witness :
    Context doubling invalidHeap invalidCtx "invalid" boomPayload = (.ok shadowCtx, shadowHeap) ∧
      HasType boomPayload .string ∧
      Wrap .string shadowCtx "invalid" testProduction ⟨true, shadowHeap, 0⟩ =
        ((some ⟨.string, .string ""⟩,
          some (.errorf "unexpected payload type: <nil> (wanted: string)")),
          ⟨true, shadowHeap, 0⟩) :=
  have hgood : HasType boomPayload .string := ⟨_, rfl, Or.inl ⟨rfl, rfl⟩⟩
  ⟨rfl, hgood,
    (Wrap_first_command_only .string shadowCtx "invalid" testProduction ⟨true, shadowHeap, 0⟩
      ⟨"invalid", none⟩ ⟨"invalid", boomPayload⟩ [] [] [] rfl rfl (by simp) rfl
      (not_HasType_nil _) rfl hgood).1⟩

/-- C18: a nil payload is of no type. With the gate on, when the first command with the
requested `Id` was attached with the payload nil, then for every type `T`, interface types and
`any` included, `Wrap` returns the zero value of `T` (nil for an interface type) and an error
that is not nil, whose message starts with "unexpected payload type: <nil>"; the result is
never a nil value with a nil error, the world is as before and a recording `f` records no
invocation. -/
theorem Wrap_nil_payload {σ : Type} (T : GoType) (ctx : Ctx) (id : String)
    (f : Fn σ (Any × Option GoError)) (w : World σ) (c : Command)
    (hon : w.enabled = true) (hfirst : IsFirstWithId (attached w.heap ctx) id c)
    (hnil : c.Payload = none) :
    (∃ rest err, Wrap T ctx id f w = ((zeroValue T, some err), w) ∧
        err.Error = "unexpected payload type: <nil>" ++ rest) ∧
      (Wrap T ctx id f w).1 ≠ (none, none) ∧
      (T.isInterface = true → (Wrap T ctx id f w).1.1 = none) ∧
      ∀ log, (Wrap T ctx id (traced .production f) (w.withLog log)).2.vars.1 = log := by
  have hbad : ¬ HasType c.Payload T := by
    rw [hnil]
    exact not_HasType_nil T
  have hw := Wrap_mismatch T ctx id f w c hon hfirst hbad
  refine ⟨⟨" (wanted: " ++ fmtT (zeroValue T) ++ ")", _, hw, ?_⟩, ?_, ?_, ?_⟩
  · rw [hnil]
    show "unexpected payload type: " ++ "<nil>" ++ " (wanted: " ++ fmtT (zeroValue T) ++ ")" =
      "unexpected payload type: <nil>" ++ (" (wanted: " ++ fmtT (zeroValue T) ++ ")")
    have hlit : "unexpected payload type: " ++ "<nil>" = "unexpected payload type: <nil>" := by
      decide
    rw [hlit, String.append_assoc, String.append_assoc, String.append_assoc]
  · rw [hw]
    intro heq
    have herr := congrArg (fun r => r.2) heq
    simp at herr
  · intro hT
    rw [hw]
    simp [zeroValue, hT]
  · intro log
    rw [Wrap_mismatch T ctx id _ (w.withLog log) c hon hfirst hbad]
    rfl

/-- Witness for C18 on the context of `TestWrap/invalid debug payload type`: with `T = any`
the value is nil and the error is not, and with a pointer type the zero value is the nil
pointer of that type. -/
theorem Wrap_nil_payload_witness :
    Wrap GoType.any invalidCtx "invalid" testProduction ⟨true, invalidHeap, 0⟩ =
        ((none, some (.errorf "unexpected payload type: <nil> (wanted: <nil>)")),
          ⟨true, invalidHeap, 0⟩) ∧
      Wrap (.pointer .string) invalidCtx "invalid" testProduction ⟨true, invalidHeap, 0⟩ =
        ((some ⟨.pointer .string, .nilRef⟩,
          some (.errorf "unexpected payload type: <nil> (wanted: *string)")),
          ⟨true, invalidHeap, 0⟩) ∧
      (Wrap GoType.any invalidCtx "invalid" testProduction ⟨true, invalidHeap, 0⟩).1 ≠
        (none, none) :=
  ⟨rfl, rfl,
    (Wrap_nil_payload GoType.any invalidCtx "invalid" testProduction ⟨true, invalidHeap, 0⟩
      ⟨"invalid", none⟩ rfl ⟨[], [], rfl, rfl, by simp⟩ rfl).2.1⟩


theorem Valid_append_other (grow : Nat → Nat) (h : Heap) (s t : Slice) (c : Command)
    (hv : h.Valid t) : (append grow h s c).2.Valid t := by
  refine ⟨Allocated_append_other grow h s t c hv.1, ?_⟩
  have hlen := hv.2
  unfold append
  by_cases hroom : s.len < s.cap
  · simp only [hroom, if_true]
    unfold Heap.store
    cases hget : h.arrays.get? s.array with
    | none => exact hlen
    | some slots =>
      unfold Heap.elems at hlen ⊢
      simp only [List.get?_eq_getElem?] at hlen hget ⊢
      by_cases hta : t.array = s.array
      · rw [hta, hget] at hlen
        have hlt : s.array < h.arrays.length := by
          rcases Nat.lt_or_ge s.array h.arrays.length with hlt | hge
          · exact hlt
          · rw [List.getElem?_eq_none hge] at hget
            exact absurd hget (by simp)
        rw [hta, List.getElem?_set_self (by simpa using hlt)]
        simp only [List.length_take] at hlen ⊢
        simp only [List.length_append, List.length_take, List.length_cons, List.length_drop]
        omega
      · rw [List.getElem?_set_ne (fun hh => hta hh.symm)]
        exact hlen
  · simp only [hroom, if_false]
    unfold Heap.elems at hlen ⊢
    simp only [List.get?_eq_getElem?] at hlen ⊢
    rcases Nat.lt_or_ge t.array h.arrays.length with hlt | hge
    · rw [List.getElem?_append_left hlt]
      exact hlen
    · rw [List.getElem?_eq_none hge] at hlen
      have h0 : t.len = 0 := by simpa using hlen.symm
      simp only [h0, List.take_zero]
      split <;> rfl

end Debug
